import Mathlib

/-!
# Verification of the AIXM airspace boundary/polygon engine

Shallow embedding of the boundary resolution, polygon assembly and geometry
repair code of `src/airspace-converter.js` (class `AirspaceConverter`), together
with the parts of its pinned dependencies that the code calls into:
`@turf/turf@6.5` (`lineString`, `lineToPolygon`, `lineArc`, `circle` helpers)
and `@mapbox/geojson-rewind`.

Modelling conventions:
* A coordinate pair `[lon, lat]` is `Coord := ℚ × ℚ`; JavaScript float
  arithmetic on coordinates is modelled by exact rational arithmetic.
* The two transcendental geodesic primitives of turf, `bearing` and
  `destination`, are kept abstract: every function that calls them takes them
  as explicit parameters.  `removeOverlapPoints` calls
  `parseInt(calcBearing(...))`, so there the parameter is the integer-valued
  composite of turf's bearing with JavaScript `parseInt` truncation.
* Fallible code returns `Except ConvError`; the thrown `Error` messages of the
  source are represented by the constructors of `ConvError`, which carry the
  airspace identifier / sequence-number strings interpolated into the message.
-/

set_option autoImplicit false

namespace AixmToGeojson

/-- A `[longitude, latitude]` coordinate pair in decimal degrees. -/
abbrev Coord : Type := ℚ × ℚ

/-! ## Error taxonomy

Each constructor stands for one `throw new Error(...)` site of the source.
The `String` arguments are the `this.ident` / `this.seqno` values interpolated
into the message (`seqno` is kept as a string since it only annotates text). -/

/-- Errors thrown while converting one airspace boundary.  The last four
constructors model the errors thrown inside the turf helpers
(`lineString`, `polygon`) that `createPolygonGeometry` calls without catching;
those turf messages do not mention the airspace. -/
inductive ConvError : Type where
  | unsupportedBoundaryType (ident seqno btype : String)
  | invalidLineBoundary (ident seqno : String)
  | invalidCoordinate (ident seqno : String)
  | transformFailed (ident seqno : String)
  | previousCoordinateMissing (ident seqno : String)
  | invalidArcDefinition (ident seqno : String)
  | invalidArcDirection (ident seqno : String)
  | invalidArcRadius (ident seqno : String)
  | invalidArcCentre (ident seqno : String)
  | invalidArcTo (ident seqno : String)
  | invalidCircleDefinition (ident seqno : String)
  | invalidCircleRadius (ident seqno : String)
  | invalidCircleCentre (ident seqno : String)
  | lineStringTooShort
  | polygonRingTooShort
  | polygonRingNotClosed
  | fixFailed (ident seqno : String)
  deriving DecidableEq, Repr

/-! ## Geometry repair helpers: `removeDuplicates` -/

/-- The loop body of `removeDuplicates`: the source walks the input, keeping a
`processed` array, and appends a coordinate only when no already-kept
coordinate satisfies `distance(value, coord, km) < 0.001`.  The proximity test
(turf's haversine `distance` compared with the 0.001 km threshold) is the
abstract parameter `close`. -/
def removeDuplicatesLoop (close : Coord → Coord → Bool) :
    List Coord → List Coord → List Coord
  | processed, [] => processed
  | processed, coord :: rest =>
      if processed.any (fun value => close value coord) then
        removeDuplicatesLoop close processed rest
      else
        removeDuplicatesLoop close (processed ++ [coord]) rest

/-- `removeDuplicates` of `airspace-converter.js` (lines 875-888). -/
def removeDuplicates (close : Coord → Coord → Bool) (coordinates : List Coord) :
    List Coord :=
  removeDuplicatesLoop close [] coordinates

/-! ## Geometry repair helpers: `removeOverlapPoints` -/

/-- One iteration of the `coordinates.forEach((coord, index) => ...)` loop of
`removeOverlapPoints` (lines 897-923).  The state is the pair
`(fixedPoints, lastBearing)`; the second component of the input pair is
`coordinates[index + 1]` (`none` at the final index).  `bear` is
`parseInt(calcBearing(coord, nextPoint))`: turf's great-circle bearing in
(-180, 180], truncated to an integer by JavaScript `parseInt`. -/
def overlapStep (bear : Coord → Coord → Int) (state : List Coord × Option Int)
    (pair : Coord × Option Coord) : List Coord × Option Int :=
  match pair with
  | (coord, none) => (state.1 ++ [coord], state.2)
  | (coord, some nextPoint) =>
      let nb0 := bear coord nextPoint
      -- always use 360 instead of 0
      let nextBearing := if nb0 = 0 then 360 else nb0
      -- the first branch of the source's ternary is unsatisfiable
      let oppBearing :=
        if 360 < nextBearing ∧ nextBearing < 180 then nextBearing + 180
        else nextBearing - 180
      match state.2 with
      | none => (state.1 ++ [coord], some nextBearing)
      | some lastBearing =>
          if oppBearing ≠ lastBearing then (state.1 ++ [coord], some nextBearing)
          else (state.1, some lastBearing)

/-- Pair every element of the list with its successor in the original list
(`coordinates[index + 1]`), `none` for the last element. -/
def withSuccessor (coordinates : List Coord) : List (Coord × Option Coord) :=
  coordinates.zip (coordinates.tail.map some ++ [none])

/-- `removeOverlapPoints` of `airspace-converter.js` (lines 897-923),
parameterised by the integer-truncated bearing `bear`. -/
def removeOverlapPoints (bear : Coord → Coord → Int) (coordinates : List Coord) :
    List Coord :=
  ((withSuccessor coordinates).foldl (overlapStep bear) ([], none)).1

/-- State-machine reading of `removeOverlapPoints`: keep the head; a point with
a successor is dropped exactly when `adjustedBearing(point, successor) - 180`
equals the bearing recorded when the most recently *kept* point was processed
(the record is not refreshed on a drop); the final point is always kept.
`adjustedBearing` maps a raw bearing of `0` to `360`. -/
def overlapScan (bear : Coord → Coord → Int) :
    Option Int → List Coord → List Coord
  | _, [] => []
  | _, [coord] => [coord]
  | lastBearing, coord :: next :: rest =>
      let nb0 := bear coord next
      let nextBearing := if nb0 = 0 then 360 else nb0
      match lastBearing with
      | none => coord :: overlapScan bear (some nextBearing) (next :: rest)
      | some lb =>
          if nextBearing - 180 = lb then overlapScan bear (some lb) (next :: rest)
          else coord :: overlapScan bear (some nextBearing) (next :: rest)

/-- Two integer-degree bearings that are the exact reverse of one another:
they differ by 180°, in either direction around the compass. -/
def reverseBearingInt (b1 b2 : Int) : Bool :=
  (b2 - b1) % 360 = 180

/-- Helper for `overlapClaimFilter`: `prev` is the input predecessor of the
head of the remaining list. -/
def overlapClaimFilterAux (bear : Coord → Coord → Int) :
    Coord → List Coord → List Coord
  | _, [] => []
  | _, [coord] => [coord]
  | prev, coord :: next :: rest =>
      if reverseBearingInt (bear prev coord) (bear coord next) then
        overlapClaimFilterAux bear coord (next :: rest)
      else
        coord :: overlapClaimFilterAux bear coord (next :: rest)

/-- The overlap-removal behaviour as the specification claims it: a point is
dropped exactly when the integer-degree bearing from it to its successor is
the exact reverse (±180°) of the integer-degree bearing by which it was
reached from its input predecessor; all other points are retained.  Written
from the claim's words, for comparison against `removeOverlapPoints`. -/
def overlapClaimFilter (bear : Coord → Coord → Int) : List Coord → List Coord
  | [] => []
  | coord :: rest => coord :: overlapClaimFilterAux bear coord rest

/-- Integer-truncated turf bearing on points of the equator: for two points
with latitude 0 and longitude difference in (0, 180), turf's formula
`atan2(sin Δλ · cos φ₂, cos φ₁ · sin φ₂ - sin φ₁ · cos φ₂ · cos Δλ)` reduces
exactly to `atan2(±sin Δλ, 0) = ±90°`, so `parseInt` of it is exactly `±90`.
Used only at such equatorial points; elsewhere the value is irrelevant. -/
def bearEq (p q : Coord) : Int :=
  if p.2 = 0 ∧ q.2 = 0 then (if p.1 < q.1 then 90 else -90) else 0

/-! ## Coordinate tokens and `transformCoordinates`

Coordinate strings of the AIXM source match
`REGEX_COORDINATES = /^[0-9]{6}[NS]\s+[0-9]{7}[EW]$/`.  We model a token after
lexing: the three two-digit latitude groups, the 3+2+2-digit longitude groups
and the two hemisphere letters.  -/

/-- A pre-lexed `DDMMSS[N|S] DDDMMSS[E|W]` coordinate token. -/
structure DmsToken : Type where
  latDeg : ℕ
  latMin : ℕ
  latSec : ℕ
  latSouth : Bool
  lonDeg : ℕ
  lonMin : ℕ
  lonSec : ℕ
  lonWest : Bool
  deriving DecidableEq, Repr

/-- Structural counterpart of `REGEX_COORDINATES.test` on a pre-lexed token:
the latitude groups are two digits each and the longitude degree group is
three digits (the regex checks only digit counts, not value ranges). -/
def tokenPatternOk (t : DmsToken) : Bool :=
  decide (t.latDeg ≤ 99 ∧ t.latMin ≤ 99 ∧ t.latSec ≤ 99 ∧
    t.lonDeg ≤ 999 ∧ t.lonMin ≤ 99 ∧ t.lonSec ≤ 99)

/-- Signed decimal latitude of a token. -/
def dmsLat (t : DmsToken) : ℚ :=
  (if t.latSouth then -1 else 1) *
    ((t.latDeg : ℚ) + (t.latMin : ℚ) / 60 + (t.latSec : ℚ) / 3600)

/-- Signed decimal longitude of a token. -/
def dmsLon (t : DmsToken) : ℚ :=
  (if t.lonWest then -1 else 1) *
    ((t.lonDeg : ℚ) + (t.lonMin : ℚ) / 60 + (t.lonSec : ℚ) / 3600)

/-- `transformCoordinates` (lines 680-718): reformats the token and hands it
to the `coordinate-parser` package, returning `[lon, lat]`.  That parser
rejects minute/second groups ≥ 60 and magnitudes beyond 90°/180°; the thrown
error is caught and rethrown naming the airspace and sequence number. -/
def transformCoordinates (ident seqno : String) (t : DmsToken) :
    Except ConvError Coord :=
  if t.latMin < 60 ∧ t.latSec < 60 ∧ t.lonMin < 60 ∧ t.lonSec < 60 ∧
      |dmsLat t| ≤ 90 ∧ |dmsLon t| ≤ 180 then
    .ok (dmsLon t, dmsLat t)
  else
    .error (.transformFailed ident seqno)

/-! ## turf 6.5 tessellation helpers (`circle`, `lineArc`)

`@turf/turf` is pinned to `^6.5.0` by `package.json`.  The geodesic
`destination(center, radiusKm, bearingDeg)` primitive is the abstract
parameter `dest`; the surrounding loop structure is modelled exactly. -/

/-- turf's `convertAngleTo360`: `beta = alfa % 360; if (beta < 0) beta += 360`,
i.e. the representative of `alfa` modulo 360 in `[0, 360)`. -/
def convertAngleTo360 (alfa : ℚ) : ℚ :=
  alfa - 360 * ⌊alfa / 360⌋

/-- turf's `circle(center, radius, {steps})`: `steps` points at bearings
`i * -360 / steps`, then the first point is pushed again to close the ring. -/
def circleCoords (dest : Coord → ℚ → ℚ → Coord) (center : Coord)
    (radiusKm : ℚ) (steps : ℕ) : List Coord :=
  let pts := (List.range steps).map
    (fun i => dest center radiusKm (((i : ℚ) * (-360)) / (steps : ℚ)))
  match pts.head? with
  | some h => pts ++ [h]
  | none => pts

/-- turf `lineArc`'s end-of-sweep bearing: `angle1 < angle2 ? angle2 :
angle2 + 360`. -/
def arcEndDegree (angle1 angle2 : ℚ) : ℚ :=
  if angle1 < angle2 then angle2 else angle2 + 360

/-- The number of points pushed by turf `lineArc`'s
`while (alfa < arcEndDegree)` loop, whose `i`-th bearing is
`angle1 + (i * 360) / steps`: it runs while `angle1 + i * (360 / steps)` is
below the end bearing, so it pushes `⌈(arcEndDegree - angle1) / (360/steps)⌉`
points. -/
def arcK (steps : ℕ) (angle1 angle2 : ℚ) : ℕ :=
  (⌈(arcEndDegree angle1 angle2 - angle1) / ((360 : ℚ) / (steps : ℚ))⌉).toNat

/-- turf's `lineArc(center, radius, bearing1, bearing2, {steps})`.  When the
normalised angles coincide it degenerates to the full circle.  Otherwise the
`while (alfa < arcEndDegree)` loop samples bearings
`arcStartDegree + (i * 360) / steps` for `i = 0, 1, ...` (`arcK` many), and a
final point at `arcEndDegree` is pushed only when the loop overshot it
strictly.  (`steps = 0` makes the JavaScript increment `Infinity`, giving just
the start and end samples; the converter's config makes `steps` a positive
integer, 100 by default.) -/
def lineArcCoords (dest : Coord → ℚ → ℚ → Coord) (steps : ℕ) (center : Coord)
    (radiusKm : ℚ) (bearing1 bearing2 : ℚ) : List Coord :=
  let angle1 := convertAngleTo360 bearing1
  let angle2 := convertAngleTo360 bearing2
  if angle1 = angle2 then
    circleCoords dest center radiusKm steps
  else if steps = 0 then
    [dest center radiusKm angle1, dest center radiusKm (arcEndDegree angle1 angle2)]
  else
    ((List.range (arcK steps angle1 angle2)).map
        (fun i : ℕ => dest center radiusKm (angle1 + ((i : ℚ) * 360) / (steps : ℚ)))) ++
      (if arcEndDegree angle1 angle2 <
          angle1 + (arcK steps angle1 angle2 : ℚ) * (360 / (steps : ℚ)) then
        [dest center radiusKm (arcEndDegree angle1 angle2)]
      else [])

/-! ## Boundary definitions and the resolver -/

/-- One entry of the `boundary` array.  The source dispatches on the single
key of the definition object; `other` covers any key outside
`line`/`arc`/`circle`.  Fields that the source reads with `?.` and checks
against `null` are `Option`s.  An arc/circle `radius` string matching
`REGEX_ARC_RADIUS = /^(\d+(\.\d+)?)\s*(NM|nm)?$/` is modelled by the
(non-negative decimal) value that `parseFloat` extracts from it; an invalid
radius string is modelled by a negative value. -/
inductive BoundaryDefinition : Type where
  | line (points : List DmsToken)
  | arc (dir : Option String) (radius : Option ℚ) (centre : Option DmsToken)
      (arcTo : Option DmsToken)
  | circle (radius : Option ℚ) (centre : Option DmsToken)
  | other (btype : String)
  deriving Repr

/-- The `for (const coordinate of coordinates)` loop of
`createCoordinatesFromLine`: validate each token against `REGEX_COORDINATES`,
transform it, and push the result. -/
def createCoordinatesFromLineLoop (ident seqno : String) :
    List DmsToken → Except ConvError (List Coord)
  | [] => .ok []
  | t :: rest =>
      if tokenPatternOk t then
        match transformCoordinates ident seqno t with
        | .error e => .error e
        | .ok coord =>
            match createCoordinatesFromLineLoop ident seqno rest with
            | .error e => .error e
            | .ok coords => .ok (coord :: coords)
      else .error (.invalidCoordinate ident seqno)

/-- `createCoordinatesFromLine` (lines 500-524): rejects an empty point list,
then validates and transforms each token in order. -/
def createCoordinatesFromLine (ident seqno : String) (points : List DmsToken) :
    Except ConvError (List Coord) :=
  if points.isEmpty then .error (.invalidLineBoundary ident seqno)
  else createCoordinatesFromLineLoop ident seqno points

/-- The tessellation part of `createCoordinatesFromArc` (lines 587-618), after
all validation has passed: swap start/end for a counter-clockwise arc, convert
the radius to kilometres, take bearings from the centre, call turf's
`lineArc`, and reverse the coordinate order again for counter-clockwise
arcs. -/
def arcPoints (bearing : Coord → Coord → ℚ) (dest : Coord → ℚ → ℚ → Coord)
    (steps : ℕ) (lastCoord centerPoint toPoint : Coord) (radiusKm : ℚ)
    (isClockwise : Bool) : List Coord :=
  let startPoint := if isClockwise then lastCoord else toPoint
  let endPoint := if isClockwise then toPoint else lastCoord
  let startBearing := bearing centerPoint startPoint
  let endBearing := bearing centerPoint endPoint
  let arc := lineArcCoords dest steps centerPoint radiusKm startBearing endBearing
  if isClockwise then arc else arc.reverse

/-- `createCoordinatesFromArc` (lines 533-619).  The error checks appear in
source order: missing previous coordinate pair first, then missing fields,
then direction / radius / centre / to format. -/
def createCoordinatesFromArc (bearing : Coord → Coord → ℚ)
    (dest : Coord → ℚ → ℚ → Coord) (steps : ℕ) (ident seqno : String)
    (boundaryCoordinates : List Coord) (dir : Option String)
    (radius : Option ℚ) (centre arcTo : Option DmsToken) :
    Except ConvError (List Coord) :=
  match boundaryCoordinates.getLast? with
  | none => .error (.previousCoordinateMissing ident seqno)
  | some lastCoord =>
      match dir, radius, centre, arcTo with
      | some d, some r, some c, some t =>
          if ¬(d = "cw" ∨ d = "ccw") then .error (.invalidArcDirection ident seqno)
          else if ¬(0 ≤ r) then .error (.invalidArcRadius ident seqno)
          else if ¬(tokenPatternOk c) then .error (.invalidArcCentre ident seqno)
          else if ¬(tokenPatternOk t) then .error (.invalidArcTo ident seqno)
          else
            match transformCoordinates ident seqno c with
            | .error e => .error e
            | .ok centerPoint =>
                match transformCoordinates ident seqno t with
                | .error e => .error e
                | .ok toPoint =>
                    .ok (arcPoints bearing dest steps lastCoord centerPoint
                      toPoint (r * 1.852) (d = "cw"))
      | _, _, _, _ => .error (.invalidArcDefinition ident seqno)

/-- `createCoordinatesFromCircle` (lines 628-671). -/
def createCoordinatesFromCircle (dest : Coord → ℚ → ℚ → Coord) (steps : ℕ)
    (ident seqno : String) (radius : Option ℚ) (centre : Option DmsToken) :
    Except ConvError (List Coord) :=
  match radius, centre with
  | some r, some c =>
      if ¬(0 ≤ r) then .error (.invalidCircleRadius ident seqno)
      else if ¬(tokenPatternOk c) then .error (.invalidCircleCentre ident seqno)
      else
        match transformCoordinates ident seqno c with
        | .error e => .error e
        | .ok centerPoint => .ok (circleCoords dest centerPoint (r * 1.852) steps)
  | _, _ => .error (.invalidCircleDefinition ident seqno)

/-- The `for (const boundaryDefinition of boundary)` loop of
`createPolygonGeometry` (lines 457-481): each handler's result is pushed onto
`this.boundaryCoordinates` (the accumulator `acc`). -/
def resolveBoundary (bearing : Coord → Coord → ℚ) (dest : Coord → ℚ → ℚ → Coord)
    (steps : ℕ) (ident seqno : String) :
    List Coord → List BoundaryDefinition → Except ConvError (List Coord)
  | acc, [] => .ok acc
  | acc, .line points :: rest =>
      match createCoordinatesFromLine ident seqno points with
      | .error e => .error e
      | .ok coords => resolveBoundary bearing dest steps ident seqno (acc ++ coords) rest
  | acc, .arc dir radius centre arcTo :: rest =>
      match createCoordinatesFromArc bearing dest steps ident seqno acc dir radius centre arcTo with
      | .error e => .error e
      | .ok coords => resolveBoundary bearing dest steps ident seqno (acc ++ coords) rest
  | acc, .circle radius centre :: rest =>
      match createCoordinatesFromCircle dest steps ident seqno radius centre with
      | .error e => .error e
      | .ok coords => resolveBoundary bearing dest steps ident seqno (acc ++ coords) rest
  | _acc, .other btype :: _rest => .error (.unsupportedBoundaryType ident seqno btype)

/-! ## Polygon assembly: turf `lineString`/`lineToPolygon` and mapbox rewind -/

/-- turf's `lineString` helper throws unless there are at least two
positions. -/
def turfLineStringCheck (coords : List Coord) : Except ConvError (List Coord) :=
  if coords.length < 2 then .error .lineStringTooShort else .ok coords

/-- turf `lineToPolygon`'s `autoCompleteCoords`: push a copy of the first
coordinate when the first and last coordinates differ in either component. -/
def autoCompleteCoords (coords : List Coord) : List Coord :=
  match coords.head?, coords.getLast? with
  | some first, some last =>
      if first.1 = last.1 ∧ first.2 = last.2 then coords else coords ++ [first]
  | _, _ => coords

/-- turf's `polygon` helper: every linear ring must have at least 4 positions
and identical first and last positions, else it throws. -/
def turfPolygonRingCheck (ring : List Coord) : Except ConvError (List Coord) :=
  if ring.length < 4 then .error .polygonRingTooShort
  else
    match ring.head?, ring.getLast? with
    | some first, some last =>
        if first.1 = last.1 ∧ first.2 = last.2 then .ok ring
        else .error .polygonRingNotClosed
    | _, _ => .error .polygonRingNotClosed

/-- turf `lineToPolygon` on a LineString with `autoComplete: true`:
auto-complete the coordinates and build the polygon's (single) ring. -/
def lineToPolygonRing (coords : List Coord) : Except ConvError (List Coord) :=
  turfPolygonRingCheck (autoCompleteCoords coords)

/-- Sum of `g current previous` over the non-cyclic consecutive pairs of a
list. -/
def pathSum (g : Coord → Coord → ℚ) : List Coord → ℚ
  | [] => 0
  | [_] => 0
  | a :: b :: rest => g b a + pathSum g (b :: rest)

/-- Sum of `g current previous` over the cyclic consecutive pairs: the loop of
mapbox rewind's `rewindRing` runs `i` over all indices with `j` the cyclic
predecessor index (`j = len - 1` for `i = 0`). -/
def cyclicSum (g : Coord → Coord → ℚ) (l : List Coord) : ℚ :=
  match l.head?, l.getLast? with
  | some h, some last => g h last + pathSum g l
  | _, _ => 0

/-- The summand of rewind's area accumulator:
`(ring[i][0] - ring[j][0]) * (ring[j][1] + ring[i][1])`. -/
def rewindTerm (c p : Coord) : ℚ :=
  (c.1 - p.1) * (p.2 + c.2)

/-- The `area` accumulator computed by `rewindRing` (exact arithmetic makes
the Kahan-style `err` compensation term of the source identically zero). -/
def rewindAcc (ring : List Coord) : ℚ :=
  cyclicSum rewindTerm ring

/-- mapbox `rewindRing(ring, dir)` with `dir = false` (counter-clockwise outer
ring, from `rewind(polygonFeature, false)`): reverse the ring iff
`area >= 0`. -/
def rewindRing (ring : List Coord) : List Coord :=
  if 0 ≤ rewindAcc ring then ring.reverse else ring

/-- The summand of the standard shoelace formula: twice the signed area is the
cyclic sum of `x_prev * y_cur - x_cur * y_prev`, positive for
counter-clockwise rings. -/
def shoelaceTerm (c p : Coord) : ℚ :=
  p.1 * c.2 - c.1 * p.2

/-- Twice the signed area of a ring (shoelace formula over cyclic edges;
positive iff the ring is wound counter-clockwise). -/
def shoelace2 (ring : List Coord) : ℚ :=
  cyclicSum shoelaceTerm ring

/-- The assembly tail of `createPolygonGeometry` (lines 483-490):
`createLineString`, `lineToPolygon` with auto-completion, then
`rewind(polygonFeature, false)` on the resulting ring. -/
def polygonAssembler (coords : List Coord) : Except ConvError (List Coord) :=
  match turfLineStringCheck coords with
  | .error e => .error e
  | .ok ls =>
      match lineToPolygonRing ls with
      | .error e => .error e
      | .ok ring => .ok (rewindRing ring)

/-- `createPolygonGeometry` (lines 453-491): resolve the boundary segment list
into `this.boundaryCoordinates` (empty at the start of a boundary), then
assemble, close and rewind the polygon ring. -/
def createPolygonGeometry (bearing : Coord → Coord → ℚ)
    (dest : Coord → ℚ → ℚ → Coord) (steps : ℕ) (ident seqno : String)
    (boundary : List BoundaryDefinition) : Except ConvError (List Coord) :=
  match resolveBoundary bearing dest steps ident seqno [] boundary with
  | .error e => .error e
  | .ok boundaryCoordinates => polygonAssembler boundaryCoordinates

/-! ## `validateGeometry` and `fixGeometry` -/

/-- A GeoJSON polygon geometry: a list of rings. -/
structure PolygonGeometry : Type where
  rings : List (List Coord)
  deriving DecidableEq, Repr

/-- The result of `validateGeometry` (lines 805-812): jsts `IsValidOp`,
jsts `IsSimpleOp`, and `getSelfIntersections`, whose JavaScript value is
`undefined` (`none`) or a witness object. -/
structure ValidationResult : Type where
  isValid : Bool
  isSimple : Bool
  selfIntersect : Option Coord
  deriving DecidableEq, Repr

/-- `fixGeometry` (lines 725-742), with the jsts-backed `validateGeometry` and
the repair routine `createFixedPolygon` as parameters.  The repair runs only
when `!isValid || !isSimple || selfIntersect`; it is fed
`geometry.coordinates[0]` (the outer ring), and any error it throws is caught
and rethrown naming the airspace identifier and sequence number. -/
def fixGeometry (validate : PolygonGeometry → ValidationResult)
    (createFixedPolygon : List Coord → Except ConvError PolygonGeometry)
    (ident seqno : String) (geometry : PolygonGeometry) :
    Except ConvError PolygonGeometry :=
  let v := validate geometry
  if !v.isValid || !v.isSimple || v.selfIntersect.isSome then
    match geometry.rings.head? with
    | none => .error (.fixFailed ident seqno)
    | some outer =>
        match createFixedPolygon outer with
        | .ok fixed => .ok fixed
        | .error _ => .error (.fixFailed ident seqno)
  else .ok geometry

/-! ## Concrete instantiations of the geodesic oracles

Used by the concrete evaluations below.  `bearingDemo`/`destDemo` stand for
turf's `bearing`/`destination` on the handful of argument values the concrete
arc example reaches.  The bearing values are exact: from the origin, the point
`(10, 0)` lies due east (bearing exactly 90°, both points on the equator) and
`(0, 10)` due north (bearing exactly 0°, same meridian).  The destination
samples are stand-ins roughly `1/6` of a degree from the origin — the
equatorial angular radius of an 18.52 km arc — due east / south / west /
north; no theorem below depends on these numeric values, only on which
bearings the tessellation loop samples. -/

/-- Demo bearing oracle (degrees, as turf returns them). -/
def bearingDemo (_from p : Coord) : ℚ :=
  if p.2 = 0 then 90 else 0

/-- Stand-in destination sample due east of the origin (≈ 18.52 km). -/
def destDemoEast : Coord := (1 / 6, 0)

/-- Stand-in destination sample due south of the origin (≈ 18.52 km). -/
def destDemoSouth : Coord := (0, -(1 / 6))

/-- Stand-in destination sample due west of the origin (≈ 18.52 km). -/
def destDemoWest : Coord := (-(1 / 6), 0)

/-- Stand-in destination sample due north of the origin (≈ 18.52 km). -/
def destDemoNorth : Coord := (0, 1 / 6)

/-- Demo destination oracle. -/
def destDemo (_center : Coord) (_radiusKm : ℚ) (b : ℚ) : Coord :=
  if b = 90 then destDemoEast
  else if b = 180 then destDemoSouth
  else if b = 270 then destDemoWest
  else destDemoNorth

/-- The coordinate token `000000N 0000000E` (the origin). -/
def tokenOrigin : DmsToken :=
  { latDeg := 0, latMin := 0, latSec := 0, latSouth := false,
    lonDeg := 0, lonMin := 0, lonSec := 0, lonWest := false }

/-- The coordinate token `100000N 0000000E` (latitude 10°, longitude 0°). -/
def tokenNorth10 : DmsToken :=
  { latDeg := 10, latMin := 0, latSec := 0, latSouth := false,
    lonDeg := 0, lonMin := 0, lonSec := 0, lonWest := false }

/-- The coordinate token `000000N 0100000E` (latitude 0°, longitude 10°). -/
def tokenEast10 : DmsToken :=
  { latDeg := 0, latMin := 0, latSec := 0, latSouth := false,
    lonDeg := 10, lonMin := 0, lonSec := 0, lonWest := false }

/-- The arc boundary definition of the concrete arc example: clockwise, radius
10 NM, centred at the origin, ending at `(0, 10)`. -/
def arcDemo : BoundaryDefinition :=
  .arc (some "cw") (some 10) (some tokenOrigin) (some tokenNorth10)

/-- What the claim under review predicts a resolver arc step appends: the
tessellated points "excluding the duplicate of the current `lastPoint` (the
arc's from point)".  The arc tessellation runs from the *from* bearing to the
*to* bearing, so the object the claim excludes is the tessellation's leading
element — the sample at `lastPoint`'s bearing; the prediction is independent
of the numeric positions the destination primitive produces.  Written from
the claim's words, for comparison with `resolveBoundary`. -/
def arcAppendClaim (acc : List Coord) (pts : List Coord) : List Coord :=
  acc ++ pts.tail

/-- A validation oracle that accepts everything (valid, simple, no witness). -/
def validateAccepting (_g : PolygonGeometry) : ValidationResult :=
  { isValid := true, isSimple := true, selfIntersect := none }

/-- A repair routine that marks every geometry it is given. -/
def createFixedDemo (_ring : List Coord) : Except ConvError PolygonGeometry :=
  .ok { rings := [[((0 : ℚ), (0 : ℚ))]] }

/-- A one-ring demo polygon geometry. -/
def polygonDemo : PolygonGeometry :=
  { rings := [[((0 : ℚ), (0 : ℚ)), (1, 0), (0, 1), (0, 0)]] }

/-! # Theorems -/

/-! ## Deduplication (`removeDuplicates`) -/

theorem removeDuplicatesLoop_pairwise (close : Coord → Coord → Bool) :
    ∀ (rest processed : List Coord),
      processed.Pairwise (fun a b => close a b = false) →
      (removeDuplicatesLoop close processed rest).Pairwise
        (fun a b => close a b = false) := by
  intro rest
  induction rest with
  | nil => intro processed h; exact h
  | cons c r ih =>
      intro processed h
      by_cases hany : processed.any (fun value => close value c) = true
      · simpa [removeDuplicatesLoop, hany] using ih processed h
      · have hclean : ∀ v ∈ processed, close v c = false := by
          simpa [List.any_eq_true] using hany
        have happ : (processed ++ [c]).Pairwise (fun a b => close a b = false) := by
          refine List.pairwise_append.2 ⟨h, List.pairwise_singleton _ _, ?_⟩
          intro a ha b hb
          simp only [List.mem_singleton] at hb
          subst hb
          exact hclean a ha
        simpa [removeDuplicatesLoop, hany] using ih (processed ++ [c]) happ

theorem removeDuplicatesLoop_of_clean (close : Coord → Coord → Bool) :
    ∀ (l processed : List Coord),
      (∀ c ∈ l, processed.any (fun value => close value c) = false) →
      l.Pairwise (fun a b => close a b = false) →
      removeDuplicatesLoop close processed l = processed ++ l := by
  intro l
  induction l with
  | nil => intro processed _ _; simp [removeDuplicatesLoop]
  | cons c r ih =>
      intro processed hfar hp
      have hc : processed.any (fun value => close value c) = false :=
        hfar c (List.mem_cons_self c r)
      have hpr := (List.pairwise_cons.1 hp)
      have hfar' : ∀ c' ∈ r, (processed ++ [c]).any (fun value => close value c') = false := by
        intro c' hc'
        have h1 : processed.any (fun value => close value c') = false :=
          hfar c' (List.mem_cons_of_mem _ hc')
        have h2 : close c c' = false := hpr.1 c' hc'
        simp [List.any_append, h1, h2]
      have := ih (processed ++ [c]) hfar' hpr.2
      simp only [removeDuplicatesLoop, hc, Bool.false_eq_true, if_false, this,
        List.append_assoc, List.singleton_append]

/-- C8: the deduplication stage is idempotent, and in its output no retained
point is `close` to an earlier retained point (for every proximity predicate,
in particular turf's `distance < 0.001 km` test). -/
theorem removeDuplicates_idempotent (close : Coord → Coord → Bool)
    (coordinates : List Coord) :
    removeDuplicates close (removeDuplicates close coordinates) =
        removeDuplicates close coordinates ∧
      (removeDuplicates close coordinates).Pairwise
        (fun a b => close a b = false) := by
  have hp : (removeDuplicates close coordinates).Pairwise
      (fun a b => close a b = false) :=
    removeDuplicatesLoop_pairwise close coordinates [] List.Pairwise.nil
  refine ⟨?_, hp⟩
  have := removeDuplicatesLoop_of_clean close (removeDuplicates close coordinates)
    [] (by intro c _; rfl) hp
  simpa [removeDuplicates] using this

/-! ## Arc without a preceding point (C9) -/

/-- C9: a boundary whose segment list begins with an arc fails with the
"Previous coordinate pair is missing" error (naming the airspace identifier
and sequence number), and no ring is produced. -/
theorem arc_first_segment_fails (bearing : Coord → Coord → ℚ)
    (dest : Coord → ℚ → ℚ → Coord) (steps : ℕ) (ident seqno : String)
    (dir : Option String) (radius : Option ℚ) (centre arcTo : Option DmsToken)
    (rest : List BoundaryDefinition) :
    createPolygonGeometry bearing dest steps ident seqno
        (.arc dir radius centre arcTo :: rest) =
      .error (.previousCoordinateMissing ident seqno) := rfl

/-! ## `fixGeometry` identity on accepted geometry (C4) -/

/-- C4: when validation reports `isValid = true`, `isSimple = true` and no
self-intersection witness, `fixGeometry` returns the input geometry unchanged
(the repair transformation is only applied when validation fails). -/
theorem fixGeometry_identity_on_valid (validate : PolygonGeometry → ValidationResult)
    (createFixedPolygon : List Coord → Except ConvError PolygonGeometry)
    (ident seqno : String) (geometry : PolygonGeometry)
    (h : validate geometry =
      { isValid := true, isSimple := true, selfIntersect := none }) :
    fixGeometry validate createFixedPolygon ident seqno geometry = .ok geometry := by
  simp [fixGeometry, h]

/-- Witness for C4 at a concrete geometry and oracles. -/
theorem fixGeometry_identity_on_valid_witness :
    fixGeometry validateAccepting createFixedDemo "A" "1" polygonDemo =
      .ok polygonDemo :=
  fixGeometry_identity_on_valid validateAccepting createFixedDemo "A" "1"
    polygonDemo rfl

/-! ## Overlap removal (`removeOverlapPoints`): C2 and C10 -/

theorem overlapStep_last (bear : Coord → Coord → Int) (a : List Coord)
    (lb : Option Int) (c : Coord) :
    overlapStep bear (a, lb) (c, none) = (a ++ [c], lb) := rfl

theorem overlapStep_none (bear : Coord → Coord → Int) (a : List Coord)
    (c next : Coord) :
    overlapStep bear (a, none) (c, some next) =
      (a ++ [c], some (if bear c next = 0 then 360 else bear c next)) := rfl

theorem overlapStep_some (bear : Coord → Coord → Int) (a : List Coord)
    (lb0 : Int) (c next : Coord) :
    overlapStep bear (a, some lb0) (c, some next) =
      if (if bear c next = 0 then 360 else bear c next) - 180 = lb0 then
        (a, some lb0)
      else
        (a ++ [c], some (if bear c next = 0 then 360 else bear c next)) := by
  have hdead : ¬(360 < (if bear c next = 0 then 360 else bear c next) ∧
      (if bear c next = 0 then 360 else bear c next) < 180) := by
    by_cases h : bear c next = 0
    · simp [h]
    · simp only [if_neg h]
      omega
  simp only [overlapStep, hdead, if_false, ne_eq, ite_not]

theorem overlapScan_cons_none (bear : Coord → Coord → Int) (c next : Coord)
    (rest : List Coord) :
    overlapScan bear none (c :: next :: rest) =
      c :: overlapScan bear (some (if bear c next = 0 then 360 else bear c next))
        (next :: rest) := rfl

theorem overlapScan_cons_some (bear : Coord → Coord → Int) (lb0 : Int)
    (c next : Coord) (rest : List Coord) :
    overlapScan bear (some lb0) (c :: next :: rest) =
      if (if bear c next = 0 then 360 else bear c next) - 180 = lb0 then
        overlapScan bear (some lb0) (next :: rest)
      else
        c :: overlapScan bear
          (some (if bear c next = 0 then 360 else bear c next)) (next :: rest) := rfl

theorem overlapScan_foldl (bear : Coord → Coord → Int) :
    ∀ (l : List Coord) (accList : List Coord) (lb : Option Int),
      ((withSuccessor l).foldl (overlapStep bear) (accList, lb)).1 =
        accList ++ overlapScan bear lb l := by
  intro l
  induction l with
  | nil => intro a lb; simp [withSuccessor, overlapScan]
  | cons c rest ih =>
      intro a lb
      cases rest with
      | nil =>
          have hw : withSuccessor [c] = [(c, none)] := rfl
          simp [hw, overlapStep_last, overlapScan]
      | cons next rest' =>
          have hw : withSuccessor (c :: next :: rest') =
              (c, some next) :: withSuccessor (next :: rest') := rfl
          rw [hw, List.foldl_cons]
          cases lb with
          | none =>
              rw [overlapStep_none, ih, overlapScan_cons_none]
              simp
          | some lb0 =>
              rw [overlapStep_some, overlapScan_cons_some]
              by_cases h : (if bear c next = 0 then 360 else bear c next) - 180 = lb0
              · rw [if_pos h, if_pos h, ih]
              · rw [if_neg h, if_neg h, ih]
                simp

/-- The faithful `forEach` translation agrees with the state-machine scan. -/
theorem removeOverlap_eq_scan (bear : Coord → Coord → Int)
    (coordinates : List Coord) :
    removeOverlapPoints bear coordinates = overlapScan bear none coordinates := by
  have := overlapScan_foldl bear coordinates [] none
  simpa [removeOverlapPoints] using this

theorem overlapScan_sublist (bear : Coord → Coord → Int) :
    ∀ (l : List Coord) (lb : Option Int), (overlapScan bear lb l).Sublist l := by
  intro l
  induction l with
  | nil => intro lb; simp [overlapScan]
  | cons c rest ih =>
      intro lb
      cases rest with
      | nil => simp [overlapScan]
      | cons next rest' =>
          cases lb with
          | none =>
              rw [overlapScan_cons_none]
              exact (ih _).cons₂ c
          | some lb0 =>
              rw [overlapScan_cons_some]
              by_cases h : (if bear c next = 0 then 360 else bear c next) - 180 = lb0
              · rw [if_pos h]
                exact (ih _).cons c
              · rw [if_neg h]
                exact (ih _).cons₂ c

theorem overlapScan_ne_nil (bear : Coord → Coord → Int) :
    ∀ (l : List Coord) (lb : Option Int), l ≠ [] → overlapScan bear lb l ≠ [] := by
  intro l
  induction l with
  | nil => intro lb h; exact absurd rfl h
  | cons c rest ih =>
      intro lb _
      cases rest with
      | nil => simp [overlapScan]
      | cons next rest' =>
          cases lb with
          | none => rw [overlapScan_cons_none]; exact List.cons_ne_nil _ _
          | some lb0 =>
              rw [overlapScan_cons_some]
              by_cases h : (if bear c next = 0 then 360 else bear c next) - 180 = lb0
              · rw [if_pos h]
                exact ih _ (List.cons_ne_nil _ _)
              · rw [if_neg h]; exact List.cons_ne_nil _ _

theorem overlapScan_getLast (bear : Coord → Coord → Int) :
    ∀ (l : List Coord) (lb : Option Int), l ≠ [] →
      (overlapScan bear lb l).getLast? = l.getLast? := by
  intro l
  induction l with
  | nil => intro lb h; exact absurd rfl h
  | cons c rest ih =>
      intro lb _
      cases rest with
      | nil => rfl
      | cons next rest' =>
          have hkeep : ∀ b : Int,
              (c :: overlapScan bear (some b) (next :: rest')).getLast? =
                (c :: next :: rest').getLast? := by
            intro b
            obtain ⟨y, ys, hS⟩ := List.exists_cons_of_ne_nil
              (overlapScan_ne_nil bear (next :: rest') (some b) (List.cons_ne_nil _ _))
            rw [hS, List.getLast?_cons_cons, ← hS,
              ih (some b) (List.cons_ne_nil _ _), List.getLast?_cons_cons]
          cases lb with
          | none => rw [overlapScan_cons_none]; exact hkeep _
          | some lb0 =>
              rw [overlapScan_cons_some]
              by_cases h : (if bear c next = 0 then 360 else bear c next) - 180 = lb0
              · rw [if_pos h, ih (some lb0) (List.cons_ne_nil _ _),
                  List.getLast?_cons_cons]
              · rw [if_neg h]; exact hkeep _

/-- C10: `removeOverlapPoints` returns an order-preserving subsequence of its
input and always retains the final input coordinate. -/
theorem removeOverlapPoints_sublist_last (bear : Coord → Coord → Int)
    (coordinates : List Coord) :
    (removeOverlapPoints bear coordinates).Sublist coordinates ∧
      (coordinates ≠ [] →
        (removeOverlapPoints bear coordinates).getLast? = coordinates.getLast?) := by
  rw [removeOverlap_eq_scan]
  exact ⟨overlapScan_sublist bear coordinates none,
    fun h => overlapScan_getLast bear coordinates none h⟩

/-- Witness for C10 at a concrete bearing oracle and input. -/
theorem removeOverlapPoints_sublist_last_witness :
    (removeOverlapPoints bearEq [((0 : ℚ), (0 : ℚ)), (1, 0), (2, 0)]).Sublist
        [((0 : ℚ), (0 : ℚ)), (1, 0), (2, 0)] ∧
      (removeOverlapPoints bearEq [((0 : ℚ), (0 : ℚ)), (1, 0), (2, 0)]).getLast? =
        ([((0 : ℚ), (0 : ℚ)), (1, 0), (2, 0)] : List Coord).getLast? := by
  have h := removeOverlapPoints_sublist_last bearEq
    [((0 : ℚ), (0 : ℚ)), (1, 0), (2, 0)]
  exact ⟨h.1, h.2 (by decide)⟩

/-- C2, counterexample: on four equatorial points — where the integer turf
bearings are exactly ±90 — the point `(2, 0)` is reached on bearing 90 and
leaves on bearing −90 (the exact reverse), yet the code keeps it: the code
only drops a point when `nextBearing - 180` equals the recorded bearing, which
never matches the `+180` direction of a reversal.  The claimed behaviour
(`overlapClaimFilter`) disagrees with the code on this input. -/
theorem removeOverlapPoints_spec_counterexample :
    removeOverlapPoints bearEq [((0 : ℚ), (0 : ℚ)), (2, 0), (1, 0), (3, 0)] =
        [((0 : ℚ), (0 : ℚ)), (2, 0), (3, 0)] ∧
      overlapClaimFilter bearEq [((0 : ℚ), (0 : ℚ)), (2, 0), (1, 0), (3, 0)] =
        [((0 : ℚ), (0 : ℚ)), (3, 0)] ∧
      removeOverlapPoints bearEq [((0 : ℚ), (0 : ℚ)), (2, 0), (1, 0), (3, 0)] ≠
        overlapClaimFilter bearEq [((0 : ℚ), (0 : ℚ)), (2, 0), (1, 0), (3, 0)] := by
  refine ⟨by decide, by decide, by decide⟩

/-- C2, amended: a point with a successor is dropped exactly when its adjusted
integer bearing to the successor minus 180 equals the bearing recorded when
the most recently kept point was processed (`overlapScan`); only this one
direction of reversal is detected, and after a drop the recorded bearing stays
that of the last kept point rather than the input predecessor.  For an
isolated middle point the drop condition is
`adjusted(bear q r) - 180 = adjusted(bear p q)`, where `adjusted` replaces a
bearing of 0 by 360. -/
theorem removeOverlapPoints_amended :
    (∀ (bear : Coord → Coord → Int) (coordinates : List Coord),
        removeOverlapPoints bear coordinates = overlapScan bear none coordinates) ∧
      (∀ (bear : Coord → Coord → Int) (p q r : Coord),
        removeOverlapPoints bear [p, q, r] =
          if (if bear q r = 0 then 360 else bear q r) - 180 =
              (if bear p q = 0 then 360 else bear p q) then [p, r]
          else [p, q, r]) := by
  refine ⟨removeOverlap_eq_scan, ?_⟩
  intro bear p q r
  rw [removeOverlap_eq_scan, overlapScan_cons_none, overlapScan_cons_some]
  by_cases h : (if bear q r = 0 then 360 else bear q r) - 180 =
      (if bear p q = 0 then 360 else bear p q)
  · rw [if_pos h, if_pos h]
    rfl
  · rw [if_neg h, if_neg h]
    rfl

/-! ## Shoelace sums and ring rewinding (C5) -/

theorem pathSum_telescope (f : Coord → ℚ) :
    ∀ (l : List Coord) (h0 last : Coord), l.head? = some h0 →
      l.getLast? = some last →
      pathSum (fun c p => f c - f p) l = f last - f h0 := by
  intro l
  induction l with
  | nil => intro h0 last hh _; simp at hh
  | cons a rest ih =>
      intro h0 last hh hl
      have ha : a = h0 := by simpa using hh
      subst ha
      cases rest with
      | nil =>
          have hal : a = last := by simpa using hl
          subst hal
          simp [pathSum]
      | cons b rest' =>
          have hl' : (b :: rest').getLast? = some last := by
            rw [← List.getLast?_cons_cons]; exact hl
          simp only [pathSum]
          rw [ih b last rfl hl']
          ring

theorem pathSum_append_of_getLast (g : Coord → Coord → ℚ) :
    ∀ (xs : List Coord) (a last : Coord), xs.getLast? = some last →
      pathSum g (xs ++ [a]) = pathSum g xs + g a last := by
  intro xs
  induction xs with
  | nil => intro a last h; simp at h
  | cons x r ih =>
      intro a last h
      cases r with
      | nil =>
          have hxl : x = last := by simpa using h
          subst hxl
          simp [pathSum]
      | cons y r' =>
          have h' : (y :: r').getLast? = some last := by
            rw [← List.getLast?_cons_cons]; exact h
          calc pathSum g ((x :: y :: r') ++ [a])
              = g y x + pathSum g ((y :: r') ++ [a]) := rfl
            _ = g y x + (pathSum g (y :: r') + g a last) := by
                rw [ih a last h']
            _ = pathSum g (x :: y :: r') + g a last := by
                rw [show pathSum g (x :: y :: r') = g y x + pathSum g (y :: r')
                  from rfl]
                ring

theorem pathSum_reverse (g : Coord → Coord → ℚ)
    (hg : ∀ a b, g a b = -g b a) :
    ∀ l : List Coord, pathSum g l.reverse = -pathSum g l := by
  intro l
  induction l with
  | nil => simp [pathSum]
  | cons a rest ih =>
      cases rest with
      | nil => simp [pathSum]
      | cons b rest' =>
          have hlast : (b :: rest').reverse.getLast? = some b := by
            rw [List.getLast?_reverse]; rfl
          rw [List.reverse_cons, pathSum_append_of_getLast g _ a b hlast, ih]
          simp only [pathSum]
          rw [hg a b]
          ring

theorem cyclicSum_reverse (g : Coord → Coord → ℚ)
    (hg : ∀ a b, g a b = -g b a) (l : List Coord) :
    cyclicSum g l.reverse = -cyclicSum g l := by
  rcases l with _ | ⟨a, rest⟩
  · simp [cyclicSum]
  · have hne : (a :: rest) ≠ [] := List.cons_ne_nil _ _
    have hlast := List.getLast?_eq_getLast (a :: rest) hne
    have hh : (a :: rest).head? = some a := rfl
    have hrevh : (a :: rest).reverse.head? = some ((a :: rest).getLast hne) := by
      rw [List.head?_reverse]; exact hlast
    have hrevl : (a :: rest).reverse.getLast? = some a := by
      rw [List.getLast?_reverse]; rfl
    simp only [cyclicSum, hh, hlast, hrevh, hrevl]
    rw [pathSum_reverse g hg, hg ((a :: rest).getLast hne) a]
    ring

theorem shoelaceTerm_antisym (a b : Coord) :
    shoelaceTerm a b = -shoelaceTerm b a := by
  simp only [shoelaceTerm]; ring

theorem shoelace2_reverse (l : List Coord) :
    shoelace2 l.reverse = -shoelace2 l :=
  cyclicSum_reverse shoelaceTerm shoelaceTerm_antisym l

theorem rewindAcc_eq_neg_shoelace2 (l : List Coord) :
    rewindAcc l = -shoelace2 l := by
  rcases l with _ | ⟨a, rest⟩
  · simp [rewindAcc, shoelace2, cyclicSum]
  · have hne : (a :: rest) ≠ [] := List.cons_ne_nil _ _
    have hlast := List.getLast?_eq_getLast (a :: rest) hne
    have hh : (a :: rest).head? = some a := rfl
    have hpath : ∀ m : List Coord, pathSum rewindTerm m =
        -pathSum shoelaceTerm m +
          pathSum (fun c p => (fun q : Coord => q.1 * q.2) c -
            (fun q : Coord => q.1 * q.2) p) m := by
      intro m
      induction m with
      | nil => simp [pathSum]
      | cons x r ihm =>
          cases r with
          | nil => simp [pathSum]
          | cons y r' =>
              simp only [pathSum] at ihm ⊢
              rw [ihm]
              simp only [rewindTerm, shoelaceTerm]
              ring
    have htel := pathSum_telescope (fun q : Coord => q.1 * q.2) (a :: rest) a
      ((a :: rest).getLast hne) hh hlast
    simp only [rewindAcc, shoelace2, cyclicSum, hh, hlast]
    rw [hpath, htel]
    simp only [rewindTerm, shoelaceTerm]
    ring

theorem shoelace2_rewindRing_nonneg (l : List Coord) :
    0 ≤ shoelace2 (rewindRing l) := by
  have hacc := rewindAcc_eq_neg_shoelace2 l
  unfold rewindRing
  by_cases h : 0 ≤ rewindAcc l
  · rw [if_pos h, shoelace2_reverse]
    linarith
  · rw [if_neg h]
    push_neg at h
    linarith

/-- Inversion for `turfPolygonRingCheck`: an `ok` result is the input ring,
which is closed and has at least 4 positions. -/
theorem turfPolygonRingCheck_ok (ring out : List Coord)
    (h : turfPolygonRingCheck ring = .ok out) :
    out = ring ∧ 4 ≤ ring.length ∧
      ∃ f l, ring.head? = some f ∧ ring.getLast? = some l ∧ f = l := by
  unfold turfPolygonRingCheck at h
  by_cases h4 : ring.length < 4
  · rw [if_pos h4] at h
    exact absurd h (by simp)
  · rw [if_neg h4] at h
    cases hh : ring.head? with
    | none =>
        simp only [hh] at h
        exact absurd h (by simp)
    | some f =>
        cases hl : ring.getLast? with
        | none =>
            simp only [hh, hl] at h
            exact absurd h (by simp)
        | some l =>
            simp only [hh, hl] at h
            by_cases hcl : f.1 = l.1 ∧ f.2 = l.2
            · rw [if_pos hcl] at h
              have hout : ring = out := by injection h
              exact ⟨hout.symm, by omega, f, l, rfl, rfl, Prod.ext hcl.1 hcl.2⟩
            · rw [if_neg hcl] at h
              exact absurd h (by simp)

/-- `rewindRing` preserves closure and length of a closed ring. -/
theorem rewindRing_props (ring : List Coord) (f l : Coord)
    (hh : ring.head? = some f) (hl : ring.getLast? = some l) (hfl : f = l) :
    (rewindRing ring).head?.isSome ∧
      (rewindRing ring).head? = (rewindRing ring).getLast? ∧
      (rewindRing ring).length = ring.length := by
  unfold rewindRing
  by_cases hge : 0 ≤ rewindAcc ring
  · rw [if_pos hge]
    refine ⟨?_, ?_, List.length_reverse ring⟩
    · rw [List.head?_reverse, hl]; rfl
    · rw [List.head?_reverse, List.getLast?_reverse, hh, hl, hfl]
  · rw [if_neg hge]
    exact ⟨by rw [hh]; rfl, by rw [hh, hl, hfl], rfl⟩

/-- Inversion for `polygonAssembler`: an `ok` result is the rewind of the
auto-completed input. -/
theorem polygonAssembler_ok (coords r : List Coord)
    (h : polygonAssembler coords = .ok r) :
    2 ≤ coords.length ∧ r = rewindRing (autoCompleteCoords coords) ∧
      turfPolygonRingCheck (autoCompleteCoords coords) =
        .ok (autoCompleteCoords coords) := by
  unfold polygonAssembler turfLineStringCheck at h
  by_cases h2 : coords.length < 2
  · rw [if_pos h2] at h
    simp at h
  · rw [if_neg h2] at h
    simp only at h
    cases hring : lineToPolygonRing coords with
    | error e => rw [hring] at h; simp at h
    | ok ring =>
        rw [hring] at h
        simp only at h
        have hr : rewindRing ring = r := by injection h
        unfold lineToPolygonRing at hring
        obtain ⟨hout, _, _⟩ := turfPolygonRingCheck_ok _ _ hring
        subst hout
        exact ⟨by omega, hr.symm, hring⟩

/-- C5: the ring returned by the polygon assembler is wound counter-clockwise:
a closed ring with negative signed area has its point order reversed (by
mapbox rewind with the counter-clockwise convention), and every ring
`createPolygonGeometry` returns has non-negative signed area. -/
theorem assembler_ring_ccw :
    (∀ ring : List Coord, shoelace2 ring < 0 → rewindRing ring = ring.reverse) ∧
      (∀ (bearing : Coord → Coord → ℚ) (dest : Coord → ℚ → ℚ → Coord)
        (steps : ℕ) (ident seqno : String) (boundary : List BoundaryDefinition)
        (r : List Coord),
        createPolygonGeometry bearing dest steps ident seqno boundary = .ok r →
        0 ≤ shoelace2 r) := by
  constructor
  · intro ring hneg
    have hacc := rewindAcc_eq_neg_shoelace2 ring
    unfold rewindRing
    rw [if_pos (by linarith)]
  · intro bearing dest steps ident seqno boundary r h
    unfold createPolygonGeometry at h
    cases hres : resolveBoundary bearing dest steps ident seqno [] boundary with
    | error e => rw [hres] at h; simp at h
    | ok boundaryCoordinates =>
        rw [hres] at h
        simp only at h
        obtain ⟨_, hr, _⟩ := polygonAssembler_ok _ _ h
        rw [hr]
        exact shoelace2_rewindRing_nonneg _

/-! ## Ring closure and degenerate rejection (C6) -/

/-- C6: if the first and last accumulated points differ, a copy of the first
point is appended; every ring the assembler returns is closed (first equals
last) with at least 4 points; and a sequence yielding fewer than 4 points
after closure is rejected with an error. -/
theorem assembler_ring_closure :
    (∀ (coords : List Coord) (f l : Coord), coords.head? = some f →
        coords.getLast? = some l → f ≠ l →
        autoCompleteCoords coords = coords ++ [f]) ∧
      (∀ coords r : List Coord, polygonAssembler coords = .ok r →
        r.head?.isSome ∧ r.head? = r.getLast? ∧ 4 ≤ r.length) ∧
      (∀ coords : List Coord, (autoCompleteCoords coords).length < 4 →
        ∃ e, polygonAssembler coords = .error e) := by
  refine ⟨?_, ?_, ?_⟩
  · intro coords f l hh hl hne
    unfold autoCompleteCoords
    rw [hh, hl]
    have hcl : ¬(f.1 = l.1 ∧ f.2 = l.2) := by
      rintro ⟨h1, h2⟩
      exact hne (Prod.ext h1 h2)
    show (if f.1 = l.1 ∧ f.2 = l.2 then coords else coords ++ [f]) = coords ++ [f]
    rw [if_neg hcl]
  · intro coords r h
    obtain ⟨_, hr, hcheck⟩ := polygonAssembler_ok _ _ h
    obtain ⟨_, hlen4, f, l, hh, hl, hfl⟩ := turfPolygonRingCheck_ok _ _ hcheck
    obtain ⟨h1, h2, h3⟩ := rewindRing_props _ f l hh hl hfl
    subst hr
    exact ⟨h1, h2, by omega⟩
  · intro coords hlen
    by_cases h2 : coords.length < 2
    · refine ⟨.lineStringTooShort, ?_⟩
      unfold polygonAssembler turfLineStringCheck
      rw [if_pos h2]
    · refine ⟨.polygonRingTooShort, ?_⟩
      unfold polygonAssembler turfLineStringCheck lineToPolygonRing
        turfPolygonRingCheck
      rw [if_neg h2]
      simp only
      rw [if_pos hlen]

/-! ## Arc tessellation lemmas and the resolver's arc step (C3) -/

theorem convertAngleTo360_bounds (x : ℚ) :
    0 ≤ convertAngleTo360 x ∧ convertAngleTo360 x < 360 := by
  have hfl : (⌊x / 360⌋ : ℚ) ≤ x / 360 := Int.floor_le _
  have hfu : x / 360 < ⌊x / 360⌋ + 1 := Int.lt_floor_add_one _
  have hne : (360 : ℚ) ≠ 0 := by norm_num
  have h1 : (⌊x / 360⌋ : ℚ) * 360 ≤ x := by
    calc (⌊x / 360⌋ : ℚ) * 360 ≤ (x / 360) * 360 :=
          mul_le_mul_of_nonneg_right hfl (by norm_num)
      _ = x := div_mul_cancel₀ x hne
  have h2 : x < ((⌊x / 360⌋ : ℚ) + 1) * 360 := by
    calc x = (x / 360) * 360 := (div_mul_cancel₀ x hne).symm
      _ < ((⌊x / 360⌋ : ℚ) + 1) * 360 :=
          mul_lt_mul_of_pos_right hfu (by norm_num)
  constructor
  · unfold convertAngleTo360; linarith
  · unfold convertAngleTo360; linarith

theorem circleCoords_ne_nil (dest : Coord → ℚ → ℚ → Coord) (center : Coord)
    (radiusKm : ℚ) (steps : ℕ) (hsteps : steps ≠ 0) :
    circleCoords dest center radiusKm steps ≠ [] := by
  obtain ⟨k, hk⟩ : ∃ k, steps = k + 1 := ⟨steps - 1, by omega⟩
  subst hk
  simp only [circleCoords, List.range_succ_eq_map, List.map_cons,
    List.head?_cons]
  simp

theorem arcK_pos (steps : ℕ) (angle1 angle2 : ℚ) (hsteps : steps ≠ 0)
    (h2 : 0 ≤ angle2) (h1 : angle1 < 360) (_hne : angle1 ≠ angle2) :
    0 < arcK steps angle1 angle2 := by
  have hdelta : (0 : ℚ) < 360 / (steps : ℚ) := by
    apply div_pos (by norm_num)
    exact_mod_cast Nat.pos_of_ne_zero hsteps
  have hnum : 0 < arcEndDegree angle1 angle2 - angle1 := by
    unfold arcEndDegree
    by_cases h : angle1 < angle2
    · rw [if_pos h]; linarith
    · rw [if_neg h]; linarith
  have hceil : 0 < ⌈(arcEndDegree angle1 angle2 - angle1) / ((360 : ℚ) / (steps : ℚ))⌉ :=
    Int.ceil_pos.2 (div_pos hnum hdelta)
  unfold arcK
  omega

theorem lineArcCoords_ne_nil (dest : Coord → ℚ → ℚ → Coord) (steps : ℕ)
    (center : Coord) (radiusKm bearing1 bearing2 : ℚ) (hsteps : steps ≠ 0) :
    lineArcCoords dest steps center radiusKm bearing1 bearing2 ≠ [] := by
  simp only [lineArcCoords]
  by_cases heq : convertAngleTo360 bearing1 = convertAngleTo360 bearing2
  · rw [if_pos heq]
    exact circleCoords_ne_nil dest center radiusKm steps hsteps
  · rw [if_neg heq, if_neg hsteps]
    have hk := arcK_pos steps (convertAngleTo360 bearing1)
      (convertAngleTo360 bearing2) hsteps (convertAngleTo360_bounds bearing2).1
      (convertAngleTo360_bounds bearing1).2 heq
    intro hcontra
    rcases List.append_eq_nil.1 hcontra with ⟨hmap, _⟩
    have hrange := List.map_eq_nil_iff.1 hmap
    rw [List.range_eq_nil] at hrange
    omega

theorem lineArcCoords_head (dest : Coord → ℚ → ℚ → Coord) (steps : ℕ)
    (center : Coord) (radiusKm bearing1 bearing2 : ℚ) (hsteps : steps ≠ 0)
    (hne : convertAngleTo360 bearing1 ≠ convertAngleTo360 bearing2) :
    (lineArcCoords dest steps center radiusKm bearing1 bearing2).head? =
      some (dest center radiusKm (convertAngleTo360 bearing1)) := by
  simp only [lineArcCoords]
  rw [if_neg hne, if_neg hsteps]
  have hk := arcK_pos steps (convertAngleTo360 bearing1)
    (convertAngleTo360 bearing2) hsteps (convertAngleTo360_bounds bearing2).1
    (convertAngleTo360_bounds bearing1).2 hne
  obtain ⟨k', hk'⟩ : ∃ k', arcK steps (convertAngleTo360 bearing1)
      (convertAngleTo360 bearing2) = k' + 1 :=
    ⟨arcK steps (convertAngleTo360 bearing1) (convertAngleTo360 bearing2) - 1,
      by omega⟩
  rw [hk', List.range_succ_eq_map, List.map_cons, List.cons_append,
    List.head?_cons]
  simp

theorem arcPoints_ne_nil (bearing : Coord → Coord → ℚ)
    (dest : Coord → ℚ → ℚ → Coord) (steps : ℕ)
    (lastCoord centerPoint toPoint : Coord) (radiusKm : ℚ) (isClockwise : Bool)
    (hsteps : steps ≠ 0) :
    arcPoints bearing dest steps lastCoord centerPoint toPoint radiusKm
      isClockwise ≠ [] := by
  simp only [arcPoints]
  cases isClockwise with
  | true =>
      simp only [if_true]
      exact lineArcCoords_ne_nil dest steps centerPoint radiusKm _ _ hsteps
  | false =>
      simp only [Bool.false_eq_true, if_false]
      rw [ne_eq, List.reverse_eq_nil_iff]
      exact lineArcCoords_ne_nil dest steps centerPoint radiusKm _ _ hsteps

/-- C3, amended: when the arc handler succeeds, the resolver appends the
handler's **entire** tessellated point list to the accumulator — including its
leading point, which for a clockwise arc is the tessellation of the *from*
point (`dest` at the from-point's bearing); no duplicate of `lastPoint` is
excluded — and the accumulator's new last element is the tessellation's
terminal point. -/
theorem arc_append_amended (bearing : Coord → Coord → ℚ)
    (dest : Coord → ℚ → ℚ → Coord) (steps : ℕ) (ident seqno : String)
    (acc : List Coord) (rest : List BoundaryDefinition) (d : String) (r : ℚ)
    (c t : DmsToken) (lastCoord centerPoint toPoint : Coord)
    (hsteps : steps ≠ 0) (hlast : acc.getLast? = some lastCoord)
    (hdir : d = "cw" ∨ d = "ccw") (hr : 0 ≤ r)
    (hc : tokenPatternOk c = true) (ht : tokenPatternOk t = true)
    (hcen : transformCoordinates ident seqno c = .ok centerPoint)
    (hto : transformCoordinates ident seqno t = .ok toPoint) :
    ∃ pts : List Coord,
      createCoordinatesFromArc bearing dest steps ident seqno acc (some d)
          (some r) (some c) (some t) = .ok pts ∧
        resolveBoundary bearing dest steps ident seqno acc
            (.arc (some d) (some r) (some c) (some t) :: rest) =
          resolveBoundary bearing dest steps ident seqno (acc ++ pts) rest ∧
        pts ≠ [] ∧
        (acc ++ pts).getLast? = pts.getLast? ∧
        (d = "cw" →
          convertAngleTo360 (bearing centerPoint lastCoord) ≠
            convertAngleTo360 (bearing centerPoint toPoint) →
          pts.head? = some (dest centerPoint (r * 1.852)
            (convertAngleTo360 (bearing centerPoint lastCoord)))) := by
  have h1 : createCoordinatesFromArc bearing dest steps ident seqno acc (some d)
      (some r) (some c) (some t) =
      .ok (arcPoints bearing dest steps lastCoord centerPoint toPoint
        (r * 1.852) (d = "cw")) := by
    simp only [createCoordinatesFromArc, hlast]
    rw [if_neg (not_not_intro hdir), if_neg (not_not_intro hr)]
    rw [if_neg (by simp [hc]), if_neg (by simp [ht])]
    rw [hcen, hto]
  have hne := arcPoints_ne_nil bearing dest steps lastCoord centerPoint toPoint
    (r * 1.852) (d = "cw") hsteps
  refine ⟨arcPoints bearing dest steps lastCoord centerPoint toPoint (r * 1.852)
    (d = "cw"), h1, ?_, hne, ?_, ?_⟩
  · simp only [resolveBoundary, h1]
  · exact List.getLast?_append_of_ne_nil acc hne
  · intro hd hangles
    subst hd
    simp only [arcPoints, decide_True, if_true]
    exact lineArcCoords_head dest steps centerPoint (r * 1.852) _ _ hsteps hangles

/-! ## Concrete evaluations of the demo instances -/

theorem evalTransformOrigin :
    transformCoordinates "A" "1" tokenOrigin = .ok (0, 0) := by
  norm_num [transformCoordinates, dmsLat, dmsLon, tokenOrigin]

theorem evalTransformNorth10 :
    transformCoordinates "A" "1" tokenNorth10 = .ok (0, 10) := by
  norm_num [transformCoordinates, dmsLat, dmsLon, tokenNorth10]

theorem evalTransformEast10 :
    transformCoordinates "A" "1" tokenEast10 = .ok (10, 0) := by
  norm_num [transformCoordinates, dmsLat, dmsLon, tokenEast10]

theorem evalLineArcDemo :
    lineArcCoords destDemo 4 ((0 : ℚ), (0 : ℚ)) ((10 : ℚ) * 1.852) 90 0 =
      [destDemoEast, destDemoSouth, destDemoWest] := by
  have ha1 : convertAngleTo360 90 = 90 := by norm_num [convertAngleTo360]
  have ha2 : convertAngleTo360 (0 : ℚ) = 0 := by norm_num [convertAngleTo360]
  have hend : arcEndDegree 90 0 = 360 := by norm_num [arcEndDegree]
  have hk : arcK 4 90 0 = 3 := by
    have h3 : (⌈((360 : ℚ) - 90) / (360 / (4 : ℕ))⌉ : ℤ) = 3 := by norm_num
    unfold arcK
    rw [hend, h3]
    rfl
  simp only [lineArcCoords, ha1, ha2]
  rw [if_neg (by norm_num), if_neg (by norm_num), hk, hend,
    if_neg (by norm_num)]
  norm_num [List.range_succ, destDemo]

theorem evalArcPointsDemo :
    arcPoints bearingDemo destDemo 4 ((10 : ℚ), (0 : ℚ)) ((0 : ℚ), (0 : ℚ))
        ((0 : ℚ), (10 : ℚ)) ((10 : ℚ) * 1.852) true =
      [destDemoEast, destDemoSouth, destDemoWest] := by
  have hb1 : bearingDemo ((0 : ℚ), (0 : ℚ)) ((10 : ℚ), (0 : ℚ)) = 90 := by
    norm_num [bearingDemo]
  have hb2 : bearingDemo ((0 : ℚ), (0 : ℚ)) ((0 : ℚ), (10 : ℚ)) = 0 := by
    norm_num [bearingDemo]
  simp only [arcPoints, if_true, hb1, hb2]
  exact evalLineArcDemo

theorem evalArcDemo :
    createCoordinatesFromArc bearingDemo destDemo 4 "A" "1"
        [((10 : ℚ), (0 : ℚ))] (some "cw") (some 10) (some tokenOrigin)
        (some tokenNorth10) =
      .ok [destDemoEast, destDemoSouth, destDemoWest] := by
  simp only [createCoordinatesFromArc, List.getLast?_singleton]
  rw [if_neg (by decide), if_neg (by decide), if_neg (by decide),
    if_neg (by decide)]
  simp only [evalTransformOrigin, evalTransformNorth10]
  simp only [decide_True]
  rw [evalArcPointsDemo]

theorem evalResolveArcDemo :
    resolveBoundary bearingDemo destDemo 4 "A" "1" [((10 : ℚ), (0 : ℚ))]
        [arcDemo] =
      .ok [((10 : ℚ), (0 : ℚ)), destDemoEast, destDemoSouth, destDemoWest] := by
  simp only [arcDemo, resolveBoundary, evalArcDemo]
  rfl

theorem evalLineDemo :
    createCoordinatesFromLine "A" "1" [tokenOrigin, tokenEast10, tokenNorth10] =
      .ok [((0 : ℚ), (0 : ℚ)), ((10 : ℚ), (0 : ℚ)), ((0 : ℚ), (10 : ℚ))] := by
  simp only [createCoordinatesFromLine, List.isEmpty_cons, Bool.false_eq_true,
    if_false, createCoordinatesFromLineLoop, evalTransformOrigin,
    evalTransformEast10, evalTransformNorth10]
  rw [if_pos (by decide), if_pos (by decide), if_pos (by decide)]

theorem evalAutoCompleteDemo :
    autoCompleteCoords [((0 : ℚ), (0 : ℚ)), (10, 0), (0, 10)] =
      [((0 : ℚ), (0 : ℚ)), (10, 0), (0, 10), (0, 0)] := by decide

theorem evalRewindAccDemo :
    rewindAcc [((0 : ℚ), (0 : ℚ)), (10, 0), (0, 10), (0, 0)] = -100 := by
  norm_num [rewindAcc, cyclicSum, pathSum, rewindTerm]

theorem evalPolyDemo :
    createPolygonGeometry bearingDemo destDemo 4 "A" "1"
        [.line [tokenOrigin, tokenEast10, tokenNorth10]] =
      .ok [((0 : ℚ), (0 : ℚ)), (10, 0), (0, 10), (0, 0)] := by
  simp only [createPolygonGeometry, resolveBoundary, evalLineDemo,
    List.nil_append]
  simp only [polygonAssembler, turfLineStringCheck]
  rw [if_neg (by decide)]
  simp only [lineToPolygonRing, evalAutoCompleteDemo, turfPolygonRingCheck]
  rw [if_neg (by decide)]
  simp only [List.head?_cons, List.getLast?_cons_cons, List.getLast?_singleton]
  rw [if_pos (by decide)]
  simp only [rewindRing, evalRewindAccDemo]
  rw [if_neg (by norm_num)]

theorem evalAssemblerDemo :
    polygonAssembler [((0 : ℚ), (0 : ℚ)), (1, 0), (0, 1)] =
      .ok [((0 : ℚ), (0 : ℚ)), (1, 0), (0, 1), (0, 0)] := by
  have hauto : autoCompleteCoords [((0 : ℚ), (0 : ℚ)), (1, 0), (0, 1)] =
      [((0 : ℚ), (0 : ℚ)), (1, 0), (0, 1), (0, 0)] := by decide
  have hacc : rewindAcc [((0 : ℚ), (0 : ℚ)), (1, 0), (0, 1), (0, 0)] = -1 := by
    norm_num [rewindAcc, cyclicSum, pathSum, rewindTerm]
  simp only [polygonAssembler, turfLineStringCheck]
  rw [if_neg (by decide)]
  simp only [lineToPolygonRing, hauto, turfPolygonRingCheck]
  rw [if_neg (by decide)]
  simp only [List.head?_cons, List.getLast?_cons_cons, List.getLast?_singleton]
  rw [if_pos (by decide)]
  simp only [rewindRing, hacc]
  rw [if_neg (by norm_num)]

/-! ## C3: counterexample and witness -/

/-- C3, counterexample: on the clockwise demo arc the handler's tessellation
samples the bearings 90°, 180°, 270° — three points, the first being the
sample at the *from* point's bearing — and the resolver appends all three, so
the accumulator ends with four points.  The claim's exclusion of the from
point's duplicate (`arcAppendClaim`) predicts only three.  The disagreement
is one of list length and holds for every destination primitive: the numeric
positions of the samples (here stand-ins ≈ 1/6° from the centre, as real turf
would produce for this 18.52 km radius) play no role. -/
theorem arc_append_claim_counterexample :
    createCoordinatesFromArc bearingDemo destDemo 4 "A" "1"
        [((10 : ℚ), (0 : ℚ))] (some "cw") (some 10) (some tokenOrigin)
        (some tokenNorth10) =
      .ok [destDemoEast, destDemoSouth, destDemoWest] ∧
      resolveBoundary bearingDemo destDemo 4 "A" "1" [((10 : ℚ), (0 : ℚ))]
          [arcDemo] =
        .ok [((10 : ℚ), (0 : ℚ)), destDemoEast, destDemoSouth, destDemoWest] ∧
      arcAppendClaim [((10 : ℚ), (0 : ℚ))]
          [destDemoEast, destDemoSouth, destDemoWest] =
        [((10 : ℚ), (0 : ℚ)), destDemoSouth, destDemoWest] ∧
      ([((10 : ℚ), (0 : ℚ)), destDemoEast, destDemoSouth, destDemoWest] :
          List Coord) ≠
        arcAppendClaim [((10 : ℚ), (0 : ℚ))]
          [destDemoEast, destDemoSouth, destDemoWest] :=
  ⟨evalArcDemo, evalResolveArcDemo, rfl, by
    intro h
    have hlen := congrArg List.length h
    simp [arcAppendClaim] at hlen⟩

/-- Witness for the amended C3 at the demo instance. -/
theorem arc_append_amended_witness :
    ∃ pts : List Coord,
      createCoordinatesFromArc bearingDemo destDemo 4 "A" "1"
          [((10 : ℚ), (0 : ℚ))] (some "cw") (some 10) (some tokenOrigin)
          (some tokenNorth10) = .ok pts ∧
        resolveBoundary bearingDemo destDemo 4 "A" "1" [((10 : ℚ), (0 : ℚ))]
            (.arc (some "cw") (some 10) (some tokenOrigin)
              (some tokenNorth10) :: []) =
          resolveBoundary bearingDemo destDemo 4 "A" "1"
            ([((10 : ℚ), (0 : ℚ))] ++ pts) [] ∧
        pts ≠ [] ∧
        ([((10 : ℚ), (0 : ℚ))] ++ pts).getLast? = pts.getLast? ∧
        ("cw" = "cw" →
          convertAngleTo360 (bearingDemo ((0 : ℚ), (0 : ℚ)) ((10 : ℚ), (0 : ℚ))) ≠
            convertAngleTo360 (bearingDemo ((0 : ℚ), (0 : ℚ)) ((0 : ℚ), (10 : ℚ))) →
          pts.head? = some (destDemo ((0 : ℚ), (0 : ℚ)) ((10 : ℚ) * 1.852)
            (convertAngleTo360
              (bearingDemo ((0 : ℚ), (0 : ℚ)) ((10 : ℚ), (0 : ℚ)))))) :=
  arc_append_amended bearingDemo destDemo 4 "A" "1" [((10 : ℚ), (0 : ℚ))] []
    "cw" 10 tokenOrigin tokenNorth10 ((10 : ℚ), (0 : ℚ)) ((0 : ℚ), (0 : ℚ))
    ((0 : ℚ), (10 : ℚ)) (by decide) rfl (Or.inl rfl) (by decide) (by decide)
    (by decide) evalTransformOrigin evalTransformNorth10

/-! ## C5 and C6 witnesses -/

/-- Witness for C5: a concrete clockwise square is reversed, and a concrete
boundary resolves to a ring of non-negative signed area. -/
theorem assembler_ring_ccw_witness :
    rewindRing [((0 : ℚ), (0 : ℚ)), (0, 1), (1, 1), (1, 0), (0, 0)] =
        ([((0 : ℚ), (0 : ℚ)), (0, 1), (1, 1), (1, 0), (0, 0)] : List Coord).reverse ∧
      0 ≤ shoelace2 [((0 : ℚ), (0 : ℚ)), (10, 0), (0, 10), (0, 0)] := by
  constructor
  · exact assembler_ring_ccw.1 _
      (by norm_num [shoelace2, cyclicSum, pathSum, shoelaceTerm])
  · exact assembler_ring_ccw.2 bearingDemo destDemo 4 "A" "1"
      [.line [tokenOrigin, tokenEast10, tokenNorth10]]
      [((0 : ℚ), (0 : ℚ)), (10, 0), (0, 10), (0, 0)] evalPolyDemo

/-- Witness for C6: concrete closure, concrete accepted ring, and concrete
rejection of a 3-point closed sequence. -/
theorem assembler_ring_closure_witness :
    autoCompleteCoords [((0 : ℚ), (0 : ℚ)), (1, 0), (0, 1)] =
        [((0 : ℚ), (0 : ℚ)), (1, 0), (0, 1)] ++ [(0, 0)] ∧
      (([((0 : ℚ), (0 : ℚ)), (1, 0), (0, 1), (0, 0)] : List Coord).head?.isSome ∧
        ([((0 : ℚ), (0 : ℚ)), (1, 0), (0, 1), (0, 0)] : List Coord).head? =
          ([((0 : ℚ), (0 : ℚ)), (1, 0), (0, 1), (0, 0)] : List Coord).getLast? ∧
        4 ≤ ([((0 : ℚ), (0 : ℚ)), (1, 0), (0, 1), (0, 0)] : List Coord).length) ∧
      ∃ e, polygonAssembler [((0 : ℚ), (0 : ℚ)), (1, 0), (0, 0)] = .error e := by
  refine ⟨?_, ?_, ?_⟩
  · exact assembler_ring_closure.1 [((0 : ℚ), (0 : ℚ)), (1, 0), (0, 1)]
      (0, 0) (0, 1) rfl (by decide) (by decide)
  · exact assembler_ring_closure.2.1 [((0 : ℚ), (0 : ℚ)), (1, 0), (0, 1)]
      [((0 : ℚ), (0 : ℚ)), (1, 0), (0, 1), (0, 0)] evalAssemblerDemo
  · exact assembler_ring_closure.2.2 [((0 : ℚ), (0 : ℚ)), (1, 0), (0, 0)]
      (by decide)

end AixmToGeojson
